import Mathlib

/-!
# A shallow embedding of the chess engine (`src/unnamed/part_001`)

The board in the source is `(ChessPiece | null)[][]`, an array of 8 rows of 8
cells.  Reads `board[r][c]` with `r` in `[0,7]` but `c` outside `[0,7]` yield
`undefined` (falsy, like `null`); writes with such a `c` create an extra
property on the row, readable later.  Reads or writes with `r` outside `[0,7]`
throw a `TypeError`.  We therefore model a board as a total function
`Int → Int → Option ChessPiece`; every site in the source where a row index
may be out of `[0,7]` is guarded in the embedding, and a function returns
`none` (in an `Option` result) where the source would throw.

The source's loops over sliding rays (`while (isValidPosition(r, c))`) are not
structurally terminating — `isValidPosition` checks `r >= 0 && r < 8 && c < 8`
but not `c >= 0`, so a ray with direction `(0,-1)` can run forever.  Rays
therefore take a `fuel : Nat` argument and return `Option` results; `none`
means the fuel ran out before the loop exited, and "the call returns `v`" is
rendered as "for some (equivalently, all sufficiently large) fuel the embedded
function returns `some v`", while non-termination is "`none` for every fuel".

JS `score` arithmetic uses IEEE doubles; we use `ℚ`.  The claims proved about
the evaluator concern only the branches that *assign* the exact constants
`±1000`, where the two agree.
-/

namespace ChessEngine

inductive PieceType where
  | pawn | rook | knight | bishop | queen | king
deriving DecidableEq, Repr

inductive PieceColor where
  | white | black
deriving DecidableEq, Repr

/-- `hasMoved` is optional in the source (`hasMoved?: boolean`) and is only
ever used in truthiness tests and set to `true`, so `undefined` is identified
with `false`. -/
structure ChessPiece where
  type : PieceType
  color : PieceColor
  hasMoved : Bool
deriving DecidableEq, Repr

structure Position where
  row : Int
  col : Int
deriving DecidableEq, Repr

def Board := Int → Int → Option ChessPiece

def emptyBoard : Board := fun _ _ => none

/-- Write one cell (JS `board[r][c] = v`; the embedding stores values, so the
separate JS step "mutate the moved object, then store the reference" is
rendered as storing the already-updated value). -/
def bset (b : Board) (r c : Int) (v : Option ChessPiece) : Board :=
  fun r' c' => if r' = r ∧ c' = c then v else b r' c'

def backRank (color : PieceColor) (c : Int) : Option ChessPiece :=
  if c = 0 ∨ c = 7 then some ⟨.rook, color, false⟩
  else if c = 1 ∨ c = 6 then some ⟨.knight, color, false⟩
  else if c = 2 ∨ c = 5 then some ⟨.bishop, color, false⟩
  else if c = 3 then some ⟨.queen, color, false⟩
  else if c = 4 then some ⟨.king, color, false⟩
  else none

/-- `initialBoard()` from the source: black pawns on row 1, white pawns on
row 6, back ranks on rows 0 (black) and 7 (white). -/
def initialBoard : Board := fun r c =>
  if ¬ (0 ≤ c ∧ c < 8) then none
  else if r = 1 then some ⟨.pawn, .black, false⟩
  else if r = 6 then some ⟨.pawn, .white, false⟩
  else if r = 0 then backRank .black c
  else if r = 7 then backRank .white c
  else none

/-- `isValidPosition(r, c)`: the source checks `r >= 0 && r < 8 && c < 8` —
note the missing `c >= 0`. -/
def isValidPosition (r c : Int) : Bool :=
  decide (0 ≤ r) && decide (r < 8) && decide (c < 8)

def knightDeltas : List (Int × Int) :=
  [(-2,-1), (-2,1), (-1,-2), (-1,2), (1,-2), (1,2), (2,-1), (2,1)]

def kingDeltas : List (Int × Int) :=
  [(-1,-1), (-1,0), (-1,1), (0,-1), (0,1), (1,-1), (1,0), (1,1)]

/-- Is there a hostile piece of type `t` at `(r, c)` (including the
`isValidPosition` guard, so a negative column reads `undefined`)? -/
def hostileAt (b : Board) (kc : PieceColor) (t : PieceType) (r c : Int) : Bool :=
  isValidPosition r c &&
    match b r c with
    | some p => decide (p.type = t) && decide (p.color ≠ kc)
    | none => false

/-- One sliding ray of `isKingUnderAttack`: walk from `(r, c)` in direction
`(dr, dc)` while `isValidPosition` holds; at the first occupied square report
whether it is hostile with a matching type, else the ray is blocked (`false`);
leaving the guard also yields `false`.  `none` = out of fuel. -/
def rayAttack (b : Board) (kc : PieceColor) (ts : List PieceType) (dr dc : Int) :
    Nat → Int → Int → Option Bool
  | 0, _, _ => none
  | fuel + 1, r, c =>
    if isValidPosition r c then
      match b r c with
      | some p => some (decide (p.color ≠ kc) && decide (p.type ∈ ts))
      | none => rayAttack b kc ts dr dc fuel (r + dr) (c + dc)
    else some false

def slideDirs : List (Int × Int × List PieceType) :=
  [ (-1,  0, [.rook, .queen]),
    ( 1,  0, [.rook, .queen]),
    ( 0, -1, [.rook, .queen]),
    ( 0,  1, [.rook, .queen]),
    (-1, -1, [.bishop, .queen]),
    (-1,  1, [.bishop, .queen]),
    ( 1, -1, [.bishop, .queen]),
    ( 1,  1, [.bishop, .queen]) ]

/-- Fold the sliding directions in source order: the first ray reporting an
attack wins; a ray that runs out of fuel makes the whole scan `none`. -/
def raysAttack (b : Board) (kc : PieceColor) (fuel : Nat) (kr kcol : Int) :
    List (Int × Int × List PieceType) → Option Bool
  | [] => some false
  | (dr, dc, ts) :: rest =>
    match rayAttack b kc ts dr dc fuel (kr + dr) (kcol + dc) with
    | none => none
    | some true => some true
    | some false => raysAttack b kc fuel kr kcol rest

/-- `isKingUnderAttack(board, kingRow, kingCol, kingColor)`.  Pawn probes use
`pawnDirection = (kingColor === "white" ? 1 : -1)` exactly as in the source
(which looks on the wrong side of the king for attacking pawns), then knight
deltas, king deltas, then the sliding rays. -/
def isKingUnderAttack (fuel : Nat) (b : Board) (kr kcol : Int)
    (kingColor : PieceColor) : Option Bool :=
  let pd : Int := if kingColor = .white then 1 else -1
  if hostileAt b kingColor .pawn (kr + pd) (kcol - 1) then some true
  else if hostileAt b kingColor .pawn (kr + pd) (kcol + 1) then some true
  else if knightDeltas.any (fun d => hostileAt b kingColor .knight (kr + d.1) (kcol + d.2)) then
    some true
  else if kingDeltas.any (fun d => hostileAt b kingColor .king (kr + d.1) (kcol + d.2)) then
    some true
  else raysAttack b kingColor fuel kr kcol slideDirs

def squareHasKing (b : Board) (color : PieceColor) (r c : Int) : Bool :=
  match b r c with
  | some p => decide (p.type = .king) && decide (p.color = color)
  | none => false

def idx8 : List Int := [0, 1, 2, 3, 4, 5, 6, 7]

/-- All squares in the row-major order of the source's nested `for` loops. -/
def allSquares : List (Int × Int) :=
  (idx8.map (fun r => idx8.map (fun c => (r, c)))).flatten

/-- Row-major king search, `(-1, -1)` when absent – as in `wouldBeInCheck`
and `isCheck`. -/
def findKing (b : Board) (color : PieceColor) : Int × Int :=
  (allSquares.find? (fun rc => squareHasKing b color rc.1 rc.2)).getD (-1, -1)

/-- `wouldBeInCheck(board, fromRow, fromCol, toRow, toCol, pieceColor)`:
simulate the bare move on a copy, find the king (the destination square if a
king now stands there, else a board scan), and ask `isKingUnderAttack`.
Row indices outside `[0,7]` would make the source throw, hence the guard. -/
def wouldBeInCheck (fuel : Nat) (b : Board) (fr fc tr tc : Int)
    (pieceColor : PieceColor) : Option Bool :=
  if ¬ (0 ≤ fr ∧ fr < 8 ∧ 0 ≤ tr ∧ tr < 8) then none
  else
    let tb := bset (bset b tr tc (b fr fc)) fr fc none
    let kpos : Int × Int :=
      match tb tr tc with
      | some p => if p.type = .king then (tr, tc) else findKing tb pieceColor
      | none => findKing tb pieceColor
    isKingUnderAttack fuel tb kpos.1 kpos.2 pieceColor

/-- `isCheck(board, color)`. -/
def isCheck (fuel : Nat) (b : Board) (color : PieceColor) : Option Bool :=
  let kpos := findKing b color
  isKingUnderAttack fuel b kpos.1 kpos.2 color

/-- `isEmpty(r, c)` from `getPossibleMoves`. -/
def isEmptyB (b : Board) (r c : Int) : Bool :=
  isValidPosition r c && (b r c).isNone

/-- `isEmptyOrCapture(r, c)` from `getPossibleMoves`. -/
def isEmptyOrCapture (b : Board) (pc : PieceColor) (r c : Int) : Bool :=
  isValidPosition r c &&
    match b r c with
    | none => true
    | some p => decide (p.color ≠ pc)

/-- One sliding ray of `getRawMoves`: push empty squares, push a hostile
blocker then stop, stop at an own blocker or when the guard fails. -/
def rayMoves (b : Board) (pc : PieceColor) (dr dc : Int) :
    Nat → Int → Int → Option (List Position)
  | 0, _, _ => none
  | fuel + 1, r, c =>
    if isValidPosition r c then
      match b r c with
      | none => (rayMoves b pc dr dc fuel (r + dr) (c + dc)).map (⟨r, c⟩ :: ·)
      | some p => if p.color ≠ pc then some [⟨r, c⟩] else some []
    else some []

def raysMoves (b : Board) (pc : PieceColor) (fuel : Nat) (row col : Int) :
    List (Int × Int) → Option (List Position)
  | [] => some []
  | (dr, dc) :: rest => do
    let first ← rayMoves b pc dr dc fuel (row + dr) (col + dc)
    let more ← raysMoves b pc fuel row col rest
    pure (first ++ more)

def rookDirs : List (Int × Int) := [(-1, 0), (1, 0), (0, -1), (0, 1)]
def bishopDirs : List (Int × Int) := [(-1, -1), (-1, 1), (1, -1), (1, 1)]
def queenDirs : List (Int × Int) :=
  [(-1, 0), (1, 0), (0, -1), (0, 1), (-1, -1), (-1, 1), (1, -1), (1, 1)]

/-- The pawn case of `getRawMoves` (forward pushes, then the two diagonal
captures, in source order). -/
def pawnRawMoves (b : Board) (piece : ChessPiece) (row col : Int) : List Position :=
  let d : Int := if piece.color = .white then -1 else 1
  let fwd :=
    if isEmptyB b (row + d) col then
      ⟨row + d, col⟩ ::
        (if ¬ piece.hasMoved ∧ isEmptyB b (row + d) col ∧ isEmptyB b (row + 2 * d) col then
          [⟨row + 2 * d, col⟩] else [])
    else []
  let capL :=
    if isValidPosition (row + d) (col - 1) &&
        (match b (row + d) (col - 1) with
        | some p => decide (p.color ≠ piece.color)
        | none => false) then
      [⟨row + d, col - 1⟩] else []
  let capR :=
    if isValidPosition (row + d) (col + 1) &&
        (match b (row + d) (col + 1) with
        | some p => decide (p.color ≠ piece.color)
        | none => false) then
      [⟨row + d, col + 1⟩] else []
  fwd ++ capL ++ capR

/-- Knight / plain king destinations: fixed deltas filtered by
`isEmptyOrCapture`, in source order. -/
def deltaRawMoves (b : Board) (pc : PieceColor) (deltas : List (Int × Int))
    (row col : Int) : List Position :=
  deltas.filterMap (fun d =>
    if isEmptyOrCapture b pc (row + d.1) (col + d.2) then some ⟨row + d.1, col + d.2⟩
    else none)

/-- The kingside half of the castling block: static rook / empty-square
tests first, then `!isCheck && !wouldBeInCheck(+1) && !wouldBeInCheck(+2)`
with JS short-circuiting (a later call is not evaluated once an earlier one
answers `true`). -/
def kingsideCastle (fuel : Nat) (b : Board) (piece : ChessPiece) (row col : Int) :
    Option (List Position) :=
  if (match b row 7 with
      | some p => decide (p.type = .rook) && decide (p.color = piece.color) &&
          decide (p.hasMoved = false)
      | none => false) && (b row 5).isNone && (b row 6).isNone then do
    let ch ← isCheck fuel b piece.color
    if ch then pure []
    else do
      let w1 ← wouldBeInCheck fuel b row col row (col + 1) piece.color
      if w1 then pure []
      else do
        let w2 ← wouldBeInCheck fuel b row col row (col + 2) piece.color
        if w2 then pure [] else pure [(⟨row, col + 2⟩ : Position)]
  else pure []

/-- The queenside half of the castling block. -/
def queensideCastle (fuel : Nat) (b : Board) (piece : ChessPiece) (row col : Int) :
    Option (List Position) :=
  if (match b row 0 with
      | some p => decide (p.type = .rook) && decide (p.color = piece.color) &&
          decide (p.hasMoved = false)
      | none => false) && (b row 1).isNone && (b row 2).isNone && (b row 3).isNone then do
    let ch ← isCheck fuel b piece.color
    if ch then pure []
    else do
      let w1 ← wouldBeInCheck fuel b row col row (col - 1) piece.color
      if w1 then pure []
      else do
        let w2 ← wouldBeInCheck fuel b row col row (col - 2) piece.color
        if w2 then pure [] else pure [(⟨row, col - 2⟩ : Position)]
  else pure []

/-- The castling block of the king case of `getRawMoves` (`if
(!piece.hasMoved) { … kingside … ; … queenside … }`). -/
def castleMoves (fuel : Nat) (b : Board) (piece : ChessPiece) (row col : Int) :
    Option (List Position) :=
  if piece.hasMoved then some []
  else do
    let ks ← kingsideCastle fuel b piece row col
    let qs ← queensideCastle fuel b piece row col
    pure (ks ++ qs)

/-- `getRawMoves(board, row, col)` (the inner helper of `getPossibleMoves`).
Assumes the caller has already found a piece at `(row, col)`. -/
def getRawMoves (fuel : Nat) (b : Board) (row col : Int) : Option (List Position) :=
  match b row col with
  | none => some []
  | some piece =>
    match piece.type with
    | .pawn => some (pawnRawMoves b piece row col)
    | .rook => raysMoves b piece.color fuel row col rookDirs
    | .knight => some (deltaRawMoves b piece.color knightDeltas row col)
    | .bishop => raysMoves b piece.color fuel row col bishopDirs
    | .queen => raysMoves b piece.color fuel row col queenDirs
    | .king => do
      let cast ← castleMoves fuel b piece row col
      pure (deltaRawMoves b piece.color kingDeltas row col ++ cast)

/-- The final filtering loop of `getPossibleMoves`: keep the raw moves whose
simulation does not leave the mover's king attacked. -/
def filterLegal (fuel : Nat) (b : Board) (row col : Int) (pc : PieceColor) :
    List Position → Option (List Position)
  | [] => some []
  | m :: rest => do
    let w ← wouldBeInCheck fuel b row col m.row m.col pc
    let rest' ← filterLegal fuel b row col pc rest
    pure (if w then rest' else m :: rest')

/-- `getPossibleMoves(board, row, col)`.  A row index outside `[0,7]` makes
the source throw on `board[row][col]`, hence the guard. -/
def getPossibleMoves (fuel : Nat) (b : Board) (row col : Int) : Option (List Position) :=
  if ¬ (0 ≤ row ∧ row < 8) then none
  else
    match b row col with
    | none => some []
    | some piece => do
      let raw ← getRawMoves fuel b row col
      filterLegal fuel b row col piece.color raw

/-- `movePiece(board, fromRow, fromCol, toRow, toCol, promotionPiece?)`.
Total but for the row-range guards (the source throws there); no fuel is
needed — the executor has no loops. -/
def movePiece (b : Board) (fr fc tr tc : Int) (promo : Option PieceType) :
    Option Board :=
  if ¬ (0 ≤ fr ∧ fr < 8) then none
  else
    match b fr fc with
    | none => some b
    | some p =>
      if ¬ (0 ≤ tr ∧ tr < 8) then none
      else
        let b1 : Board :=
          if p.type = .king ∧ (fc - tc).natAbs = 2 then
            if tc > fc then bset (bset b tr 5 (b tr 7)) tr 7 none
            else bset (bset b tr 3 (b tr 0)) tr 0 none
          else b
        let t' : PieceType :=
          if p.type = .pawn ∧ (tr = 0 ∨ tr = 7) then promo.getD .queen else p.type
        let hm' : Bool :=
          if t' = .king ∨ t' = .rook ∨ t' = .pawn then true else p.hasMoved
        some (bset (bset b1 tr tc (some ⟨t', p.color, hm'⟩)) fr fc none)

def pieceColorAt (b : Board) (color : PieceColor) (r c : Int) : Bool :=
  match b r c with
  | some p => decide (p.color = color)
  | none => false

/-- The piece scan of `isCheckmate`, in row-major order: the first piece of
`color` with a nonempty legal-move list answers `false`; a generation that
runs out of fuel propagates `none`. -/
def mateScan (fuel : Nat) (b : Board) (color : PieceColor) :
    List (Int × Int) → Option Bool
  | [] => some true
  | rc :: rest =>
    if pieceColorAt b color rc.1 rc.2 then
      match getPossibleMoves fuel b rc.1 rc.2 with
      | none => none
      | some [] => mateScan fuel b color rest
      | some (_ :: _) => some false
    else mateScan fuel b color rest

/-- `isCheckmate(board, color)`. -/
def isCheckmate (fuel : Nat) (b : Board) (color : PieceColor) : Option Bool :=
  match isCheck fuel b color with
  | none => none
  | some false => some false
  | some true => mateScan fuel b color allSquares

def pieceValues : PieceType → ℚ
  | .pawn => 1
  | .knight => 3
  | .bishop => 3
  | .rook => 5
  | .queen => 9
  | .king => 0

def materialScore (b : Board) : ℚ :=
  allSquares.foldl (fun s rc =>
    match b rc.1 rc.2 with
    | some p => s + (if p.color = .white then pieceValues p.type else -pieceValues p.type)
    | none => s) 0

def centerSquares : List (Int × Int) :=
  (([2, 3, 4, 5] : List Int).map (fun r => ([2, 3, 4, 5] : List Int).map (fun c => (r, c)))).flatten

def centerScore (b : Board) : ℚ :=
  centerSquares.foldl (fun s (rc : Int × Int) =>
    match b rc.1 rc.2 with
    | some p =>
      let v : ℚ := if (rc.1 = 3 ∨ rc.1 = 4) ∧ (rc.2 = 3 ∨ rc.2 = 4) then 3/10 else 1/10
      s + (if p.color = .white then v else -v)
    | none => s) 0

/-- `evaluateBoard(board)`: material + center control, then the terminal
overrides (`score = ±1000` on checkmate, `∓0.5` on mere check), evaluated in
the source's `if / else if` order. -/
def evaluateBoard (fuel : Nat) (b : Board) : Option ℚ :=
  let base := materialScore b + centerScore b
  match isCheckmate fuel b .white with
  | none => none
  | some true => some (-1000)
  | some false =>
    match isCheckmate fuel b .black with
    | none => none
    | some true => some 1000
    | some false =>
      match isCheck fuel b .white with
      | none => none
      | some true => some (base - 1/2)
      | some false =>
        match isCheck fuel b .black with
        | none => none
        | some true => some (base + 1/2)
        | some false => some base

def otherColor : PieceColor → PieceColor
  | .white => .black
  | .black => .white

/-- Boards reachable from `initialBoard` by alternately applying, for the side
to move, a move that `getPossibleMoves` produced (for some fuel, i.e. the
generator's run terminated and listed the destination). -/
inductive Reachable : Board → PieceColor → Prop where
  | init : Reachable initialBoard .white
  | step : ∀ (b : Board) (turn : PieceColor) (fr fc tr tc : Int)
      (promo : Option PieceType) (p : ChessPiece) (fuel : Nat)
      (mvs : List Position) (b' : Board),
      Reachable b turn →
      b fr fc = some p → p.color = turn →
      getPossibleMoves fuel b fr fc = some mvs →
      (⟨tr, tc⟩ : Position) ∈ mvs →
      movePiece b fr fc tr tc promo = some b' →
      Reachable b' (otherColor turn)

/-- Number of kings of `color` on the 8×8 part of the board. -/
def kingCount (b : Board) (color : PieceColor) : Nat :=
  (allSquares.filter (fun rc => squareHasKing b color rc.1 rc.2)).length

/-! ## Concrete boards used as inputs to the claims -/

def mk (t : PieceType) (c : PieceColor) (hm : Bool := false) : Option ChessPiece :=
  some ⟨t, c, hm⟩

/-- A white king on h1 with its own pawn on h2: no piece ever blocks the
leftward ray of the attack scan, which therefore runs off the a-file forever
(`isValidPosition` does not test `c >= 0`). -/
def c2Board : Board :=
  bset (bset emptyBoard 7 7 (mk .king .white true)) 6 7 (mk .pawn .white)

/-- White king e1 and rook a1, both unmoved, white pawn c2: queenside
castling is available, and after it the king's row is empty to its left. -/
def c3Board : Board :=
  bset (bset (bset emptyBoard 7 4 (mk .king .white)) 7 0 (mk .rook .white))
    6 2 (mk .pawn .white)

/-- The board after the queenside castle `movePiece(c3Board, 7,4, 7,2)`. -/
def c3After : Board := (movePiece c3Board 7 4 7 2 none).getD emptyBoard

/-- An unmoved white king on d1 (column 3!) with an unmoved rook on h1; the
square e1 strictly between them holds a bishop, yet only f1/g1 are tested by
the castling code.  The knight on a1 and pawn a2 block the leftward rays of
the simulations so that every scan terminates. -/
def c5Board : Board :=
  bset (bset (bset (bset (bset emptyBoard 7 3 (mk .king .white)) 7 4 (mk .bishop .white))
    7 0 (mk .knight .white)) 6 0 (mk .pawn .white)) 7 7 (mk .rook .white)

/-- A board on which the engine reports BOTH colors checkmated: the white
king on h8 is smothered by its own pawns and checked by the black knight on
g6; black has no king, so the king scan yields (-1,-1), a square the white
knights at b8 and a7 "attack" through the missing-bounds probes, and every
black move leaves that phantom square attacked. -/
def c7Board : Board :=
  bset (bset (bset (bset (bset (bset (bset emptyBoard
    0 7 (mk .king .white true))
    0 6 (mk .pawn .white))
    1 6 (mk .pawn .white))
    1 7 (mk .pawn .white))
    0 1 (mk .knight .white))
    1 0 (mk .knight .white))
    2 6 (mk .knight .black)

/-- A lone white pawn on a7, one step from promotion. -/
def c9Board : Board := bset emptyBoard 1 0 (mk .pawn .white)

/-! The eight-ply game for C10: 1. e4 d5(two-step to d5? black plays d7–d5)
2. Ke2 d4 3. Nf3 d3 4. Ng1 — and now the black d-pawn, whose diagonal
"attack" on e2 the inverted pawn probe of `isKingUnderAttack` cannot see,
is offered the capture of the white king on e2 by the generator. -/

def c10B1 : Board := (movePiece initialBoard 6 4 4 4 none).getD emptyBoard
def c10B2 : Board := (movePiece c10B1 1 3 3 3 none).getD emptyBoard
def c10B3 : Board := (movePiece c10B2 7 4 6 4 none).getD emptyBoard
def c10B4 : Board := (movePiece c10B3 3 3 4 3 none).getD emptyBoard
def c10B5 : Board := (movePiece c10B4 7 6 5 5 none).getD emptyBoard
def c10B6 : Board := (movePiece c10B5 4 3 5 3 none).getD emptyBoard
def c10B7 : Board := (movePiece c10B6 5 5 7 6 none).getD emptyBoard
def c10Final : Board := (movePiece c10B7 5 3 6 4 none).getD emptyBoard

/-! ## Claims -/

/-- Claim C1: the legal move generator is claimed to produce only
destinations inside `[0,7] × [0,7]`.  It does not: `isValidPosition` never
tests `c >= 0`, so already on the initial board the queenside knight at
`(7,1)` is offered the off-board destination `(6,-1)` (the source reads
`board[6][-1]`, which is `undefined`, i.e. an "empty" square). -/
theorem C1_generator_emits_out_of_range_square :
    getPossibleMoves 64 initialBoard 7 1 =
      some [⟨5, 0⟩, ⟨5, 2⟩, ⟨6, -1⟩] ∧
    (⟨6, -1⟩ : Position) ∈ (getPossibleMoves 64 initialBoard 7 1).getD [] ∧
    ¬ (0 ≤ (-1 : Int)) := by
  refine ⟨by decide, by decide, by decide⟩

/-- Row 7 of `c2Board` is empty strictly left of the king on `(7,7)`. -/
lemma c2Board_row7_empty (c : Int) (hc : c ≤ 6) : c2Board 7 c = none := by
  simp only [c2Board, bset, emptyBoard, mk]
  rw [if_neg (by omega), if_neg (by omega)]

/-- The leftward attack ray on row 7 of `c2Board` never exits: every square
it visits is empty (or off-board reading `undefined`), and `isValidPosition`
never fails for decreasing columns. -/
lemma c2Board_left_ray_none :
    ∀ (n : Nat) (r c : Int), r = 7 → c ≤ 6 →
      rayAttack c2Board .white [.rook, .queen] 0 (-1) n r c = none := by
  intro n
  induction n with
  | zero => intro r c _ _; rfl
  | succ k ih =>
    intro r c hr hc
    subst hr
    have hv : isValidPosition 7 c = true := by
      simp only [isValidPosition, Bool.and_eq_true, decide_eq_true_eq]
      omega
    simp only [rayAttack, hv, if_true, c2Board_row7_empty c hc]
    exact ih (7 + 0) (c + -1) (by omega) (by omega)

lemma findKing_c2Board : findKing c2Board .white = (7, 7) := by decide

/-- Claim C2: `isKingUnderAttack` is claimed to terminate on every board and
in-range square because each ray stops at the first occupied square or at
the board edge.  It does not: the left edge is never detected
(`isValidPosition` omits `c >= 0`), so on `c2Board` the leftward ray scans
columns 6, 5, …, 0, −1, −2, … forever — the scan returns no answer at any
fuel, and so does `isCheck`, which delegates to it. -/
theorem C2_attack_scan_never_terminates :
    ∀ fuel : Nat, isKingUnderAttack fuel c2Board 7 7 .white = none ∧
      isCheck fuel c2Board .white = none := by
  have hmain : ∀ fuel : Nat, isKingUnderAttack fuel c2Board 7 7 .white = none := by
    intro fuel
    cases fuel with
    | zero => rfl
    | succ k =>
      have bridge : isKingUnderAttack (k + 1) c2Board 7 7 .white =
          raysAttack c2Board .white (k + 1) 7 7
            [(0, -1, [.rook, .queen]), (0, 1, [.rook, .queen]),
             (-1, -1, [.bishop, .queen]), (-1, 1, [.bishop, .queen]),
             (1, -1, [.bishop, .queen]), (1, 1, [.bishop, .queen])] := rfl
      rw [bridge]
      simp only [raysAttack,
        c2Board_left_ray_none (k + 1) (7 + 0) (7 + -1) (by norm_num) (by norm_num)]
  intro fuel
  refine ⟨hmain fuel, ?_⟩
  have hbridge : isCheck fuel c2Board .white =
      isKingUnderAttack fuel c2Board 7 7 .white := by
    simp only [isCheck]
    rw [findKing_c2Board]
  rw [hbridge]
  exact hmain fuel

/-- On the board reached by the queenside castle, row 7 is empty strictly
left of the castled king on `(7,2)` — the rook left `(7,0)`. -/
lemma c3After_row7_empty (c : Int) (hc : c ≤ 1) : c3After 7 c = none := by
  show ((movePiece c3Board 7 4 7 2 none).getD emptyBoard) 7 c = none
  change (bset (bset (bset (bset c3Board 7 3 (c3Board 7 0)) 7 0 none) 7 2
    (some ⟨.king, .white, true⟩)) 7 4 none) 7 c = none
  simp only [bset, c3Board, emptyBoard, mk]
  split_ifs <;> first | rfl | omega

lemma c3After_left_ray_none :
    ∀ (n : Nat) (r c : Int), r = 7 → c ≤ 1 →
      rayAttack c3After .white [.rook, .queen] 0 (-1) n r c = none := by
  intro n
  induction n with
  | zero => intro r c _ _; rfl
  | succ k ih =>
    intro r c hr hc
    subst hr
    have hv : isValidPosition 7 c = true := by
      simp only [isValidPosition, Bool.and_eq_true, decide_eq_true_eq]
      omega
    simp only [rayAttack, hv, if_true, c3After_row7_empty c hc]
    exact ih (7 + 0) (c + -1) (by omega) (by omega)

lemma findKing_c3After : findKing c3After .white = (7, 2) := by decide

/-- Claim C3: every generated move is claimed to yield, via `movePiece`, a
board on which the mover's `isCheck` is `false`.  On `c3Board` the generator
(terminating here) offers white the queenside castle `(7,4) → (7,2)`;
applying it with `movePiece` also relocates the rook from `(7,0)` to
`(7,3)`, leaving the king's row empty on its left — and `isCheck` on the
resulting board never returns (the leftward attack ray runs off the board),
rather than returning `false` as claimed. -/
theorem C3_check_after_castle_never_returns :
    (⟨7, 2⟩ : Position) ∈ (getPossibleMoves 64 c3Board 7 4).getD [] ∧
    movePiece c3Board 7 4 7 2 none = some c3After ∧
    ∀ fuel : Nat, isCheck fuel c3After .white = none := by
  refine ⟨by decide, rfl, ?_⟩
  have hmain : ∀ fuel : Nat, isKingUnderAttack fuel c3After 7 2 .white = none := by
    intro fuel
    cases fuel with
    | zero => rfl
    | succ k =>
      have bridge : isKingUnderAttack (k + 1) c3After 7 2 .white =
          raysAttack c3After .white (k + 1) 7 2
            [(0, -1, [.rook, .queen]), (0, 1, [.rook, .queen]),
             (-1, -1, [.bishop, .queen]), (-1, 1, [.bishop, .queen]),
             (1, -1, [.bishop, .queen]), (1, 1, [.bishop, .queen])] := rfl
      rw [bridge]
      simp only [raysAttack,
        c3After_left_ray_none (k + 1) (7 + 0) (2 + -1) (by norm_num) (by norm_num)]
  intro fuel
  have hbridge : isCheck fuel c3After .white =
      isKingUnderAttack fuel c3After 7 2 .white := by
    simp only [isCheck]
    rw [findKing_c3After]
  rw [hbridge]
  exact hmain fuel

/-- Claim C6 counterexample: `movePiece` is claimed to return the board
unchanged on *every* call with no piece at `from`; but with `fromRow`
outside `[0,7]` the source throws (`board[8]` is `undefined` and
`undefined[0]` raises a TypeError) instead of returning — modelled as
`none`, not `some initialBoard`. -/
theorem C6_out_of_range_from_throws :
    initialBoard 8 0 = none ∧
    movePiece initialBoard 8 0 0 0 none = none := by
  exact ⟨by decide, rfl⟩

/-- Claim C6 (amended): whenever `fromRow` lies in `[0,7]` (so that the
source's row access does not throw) and there is no piece at `from`,
`movePiece` returns the input board unchanged, for every destination and
promotion argument. -/
theorem C6_amended_no_piece_is_noop (b : Board) (fr fc tr tc : Int)
    (promo : Option PieceType) (h0 : 0 ≤ fr) (h8 : fr < 8)
    (hnone : b fr fc = none) :
    movePiece b fr fc tr tc promo = some b := by
  simp [movePiece, hnone, h0, h8]

/-- Witness for C6 (amended) at a concrete input. -/
theorem C6_amended_no_piece_is_noop_witness :
    movePiece initialBoard 3 3 0 0 none = some initialBoard :=
  C6_amended_no_piece_is_noop initialBoard 3 3 0 0 none (by decide) (by decide)
    (by decide)

/-- Claim C9: a pawn reaching row 0 or row 7 through `movePiece` with no
promotion type supplied is replaced at the destination by a queen of the
pawn's color (its `hasMoved` flag is carried over unchanged — promotion
happens before the flag update, so a queen no longer triggers it).  The
hypothesis `¬ (fr = tr ∧ fc = tc)` excludes the degenerate self-move, which
does not "reach" anything (the source clears `from` last, deleting the
piece). -/
theorem C9_default_promotion_is_queen (b : Board) (fr fc tr tc : Int)
    (col : PieceColor) (hm : Bool) (h0 : 0 ≤ fr) (h8 : fr < 8)
    (hp : b fr fc = some ⟨.pawn, col, hm⟩) (htr : tr = 0 ∨ tr = 7)
    (hne : ¬ (fr = tr ∧ fc = tc)) :
    (movePiece b fr fc tr tc none).bind (fun b' => b' tr tc) =
      some ⟨.queen, col, hm⟩ := by
  have htr0 : (0 : Int) ≤ tr := by omega
  have htr8 : tr < 8 := by omega
  have hne' : ¬ (tr = fr ∧ tc = fc) := fun h => hne ⟨h.1.symm, h.2.symm⟩
  simp [movePiece, hp, h0, h8, htr0, htr8, htr, bset, hne']

/-- Witness for C9 at the spec's own scenario: the pawn at `(1,0)` moving to
`(0,0)` with no promotion type becomes a white queen. -/
theorem C9_default_promotion_is_queen_witness :
    (movePiece c9Board 1 0 0 0 none).bind (fun b' => b' 0 0) =
      some ⟨.queen, .white, false⟩ :=
  C9_default_promotion_is_queen c9Board 1 0 0 0 .white false (by decide)
    (by decide) (by decide) (Or.inl rfl) (by decide)

/-- The exact conditions under which the kingside castling destination is
pushed by the source: rook of the mover's color, unmoved, on `(row,7)`;
`(row,5)` and `(row,6)` empty; not in check; the one- and two-file king
relocations not attacked. -/
def ksCastleConds (fuel : Nat) (b : Board) (C : PieceColor) (row col : Int) : Prop :=
  b row 7 = some ⟨.rook, C, false⟩ ∧ b row 5 = none ∧ b row 6 = none ∧
  isCheck fuel b C = some false ∧
  wouldBeInCheck fuel b row col row (col + 1) C = some false ∧
  wouldBeInCheck fuel b row col row (col + 2) C = some false

/-- Queenside analogue of `ksCastleConds`: rook on `(row,0)`, squares
`(row,1)`, `(row,2)`, `(row,3)` empty. -/
def qsCastleConds (fuel : Nat) (b : Board) (C : PieceColor) (row col : Int) : Prop :=
  b row 0 = some ⟨.rook, C, false⟩ ∧ b row 1 = none ∧ b row 2 = none ∧ b row 3 = none ∧
  isCheck fuel b C = some false ∧
  wouldBeInCheck fuel b row col row (col - 1) C = some false ∧
  wouldBeInCheck fuel b row col row (col - 2) C = some false

/-- A terminating kingside-castle evaluation answers either the singleton
destination (when all its conditions hold) or nothing (when they fail). -/
lemma kingsideCastle_shape (fuel : Nat) (b : Board) (piece : ChessPiece)
    (row col : Int) (ks : List Position)
    (h : kingsideCastle fuel b piece row col = some ks) :
    (ks = [⟨row, col + 2⟩] ∧ ksCastleConds fuel b piece.color row col) ∨
    (ks = [] ∧ ¬ ksCastleConds fuel b piece.color row col) := by
  by_cases hs : ((match b row 7 with
      | some p => decide (p.type = .rook) && decide (p.color = piece.color) &&
          decide (p.hasMoved = false)
      | none => false) && (b row 5).isNone && (b row 6).isNone) = true
  case neg =>
    rw [kingsideCastle, if_neg hs] at h
    refine Or.inr ⟨(Option.some.inj h).symm, ?_⟩
    rintro ⟨h7, h5, h6, -⟩
    exact hs (by rw [h7, h5, h6]; simp)
  case pos =>
    rw [kingsideCastle, if_pos hs] at h
    have hstat : b row 7 = some ⟨.rook, piece.color, false⟩ ∧
        b row 5 = none ∧ b row 6 = none := by
      rcases hb : b row 7 with _ | p
      · rw [hb] at hs; simp at hs
      · obtain ⟨pt, pc2, pm⟩ := p
        rw [hb] at hs
        simp only [Bool.and_eq_true, decide_eq_true_eq,
          Option.isNone_iff_eq_none] at hs
        obtain ⟨⟨⟨⟨ht, hc⟩, hhm⟩, h5⟩, h6⟩ := hs
        subst ht; subst hc; subst hhm
        exact ⟨rfl, h5, h6⟩
    rcases hch : isCheck fuel b piece.color with _ | cb
    · rw [hch] at h; simp at h
    · rw [hch] at h
      simp only [Option.bind_eq_bind, Option.some_bind] at h
      cases cb
      case true =>
        simp only [if_true] at h
        refine Or.inr ⟨(Option.some.inj h).symm, ?_⟩
        rintro ⟨-, -, -, hchf, -⟩
        simp [hch] at hchf
      case false =>
        simp only [Bool.false_eq_true, if_false] at h
        rcases hw1 : wouldBeInCheck fuel b row col row (col + 1) piece.color with _ | w1
        · rw [hw1] at h; simp at h
        · rw [hw1] at h
          simp only [Option.bind_eq_bind, Option.some_bind] at h
          cases w1
          case true =>
            simp only [if_true] at h
            refine Or.inr ⟨(Option.some.inj h).symm, ?_⟩
            rintro ⟨-, -, -, -, hw1f, -⟩
            simp [hw1] at hw1f
          case false =>
            simp only [Bool.false_eq_true, if_false] at h
            rcases hw2 : wouldBeInCheck fuel b row col row (col + 2) piece.color with _ | w2
            · rw [hw2] at h; simp at h
            · rw [hw2] at h
              simp only [Option.bind_eq_bind, Option.some_bind] at h
              cases w2
              case true =>
                simp only [if_true] at h
                refine Or.inr ⟨(Option.some.inj h).symm, ?_⟩
                rintro ⟨-, -, -, -, -, hw2f⟩
                simp [hw2] at hw2f
              case false =>
                simp only [Bool.false_eq_true, if_false] at h
                exact Or.inl ⟨(Option.some.inj h).symm,
                  hstat.1, hstat.2.1, hstat.2.2, hch, hw1, hw2⟩

/-- Queenside analogue of `kingsideCastle_shape`. -/
lemma queensideCastle_shape (fuel : Nat) (b : Board) (piece : ChessPiece)
    (row col : Int) (qs : List Position)
    (h : queensideCastle fuel b piece row col = some qs) :
    (qs = [⟨row, col - 2⟩] ∧ qsCastleConds fuel b piece.color row col) ∨
    (qs = [] ∧ ¬ qsCastleConds fuel b piece.color row col) := by
  by_cases hs : ((match b row 0 with
      | some p => decide (p.type = .rook) && decide (p.color = piece.color) &&
          decide (p.hasMoved = false)
      | none => false) && (b row 1).isNone && (b row 2).isNone && (b row 3).isNone) = true
  case neg =>
    rw [queensideCastle, if_neg hs] at h
    refine Or.inr ⟨(Option.some.inj h).symm, ?_⟩
    rintro ⟨h0, h1, h2, h3, -⟩
    exact hs (by rw [h0, h1, h2, h3]; simp)
  case pos =>
    rw [queensideCastle, if_pos hs] at h
    have hstat : b row 0 = some ⟨.rook, piece.color, false⟩ ∧
        b row 1 = none ∧ b row 2 = none ∧ b row 3 = none := by
      rcases hb : b row 0 with _ | p
      · rw [hb] at hs; simp at hs
      · obtain ⟨pt, pc2, pm⟩ := p
        rw [hb] at hs
        simp only [Bool.and_eq_true, decide_eq_true_eq,
          Option.isNone_iff_eq_none] at hs
        obtain ⟨⟨⟨⟨⟨ht, hc⟩, hhm⟩, h1⟩, h2⟩, h3⟩ := hs
        subst ht; subst hc; subst hhm
        exact ⟨rfl, h1, h2, h3⟩
    rcases hch : isCheck fuel b piece.color with _ | cb
    · rw [hch] at h; simp at h
    · rw [hch] at h
      simp only [Option.bind_eq_bind, Option.some_bind] at h
      cases cb
      case true =>
        simp only [if_true] at h
        refine Or.inr ⟨(Option.some.inj h).symm, ?_⟩
        rintro ⟨-, -, -, -, hchf, -⟩
        simp [hch] at hchf
      case false =>
        simp only [Bool.false_eq_true, if_false] at h
        rcases hw1 : wouldBeInCheck fuel b row col row (col - 1) piece.color with _ | w1
        · rw [hw1] at h; simp at h
        · rw [hw1] at h
          simp only [Option.bind_eq_bind, Option.some_bind] at h
          cases w1
          case true =>
            simp only [if_true] at h
            refine Or.inr ⟨(Option.some.inj h).symm, ?_⟩
            rintro ⟨-, -, -, -, -, hw1f, -⟩
            simp [hw1] at hw1f
          case false =>
            simp only [Bool.false_eq_true, if_false] at h
            rcases hw2 : wouldBeInCheck fuel b row col row (col - 2) piece.color with _ | w2
            · rw [hw2] at h; simp at h
            · rw [hw2] at h
              simp only [Option.bind_eq_bind, Option.some_bind] at h
              cases w2
              case true =>
                simp only [if_true] at h
                refine Or.inr ⟨(Option.some.inj h).symm, ?_⟩
                rintro ⟨-, -, -, -, -, -, hw2f⟩
                simp [hw2] at hw2f
              case false =>
                simp only [Bool.false_eq_true, if_false] at h
                exact Or.inl ⟨(Option.some.inj h).symm,
                  hstat.1, hstat.2.1, hstat.2.2.1, hstat.2.2.2, hch, hw1, hw2⟩

/-- A terminating run of the legality filter keeps exactly the raw moves
whose simulation answered `some false`. -/
lemma filterLegal_mem (fuel : Nat) (b : Board) (row col : Int) (pc : PieceColor) :
    ∀ (l out : List Position), filterLegal fuel b row col pc l = some out →
      ∀ p : Position, (p ∈ out ↔ p ∈ l ∧
        wouldBeInCheck fuel b row col p.row p.col pc = some false) := by
  intro l
  induction l with
  | nil =>
    intro out h p
    simp only [filterLegal] at h
    obtain rfl : ([] : List Position) = out := Option.some.inj h
    simp
  | cons m rest ih =>
    intro out h p
    simp only [filterLegal] at h
    rcases hw : wouldBeInCheck fuel b row col m.row m.col pc with _ | w
    · rw [hw] at h; simp at h
    · rw [hw] at h
      simp only [Option.bind_eq_bind, Option.some_bind] at h
      rcases hr : filterLegal fuel b row col pc rest with _ | rest'
      · rw [hr] at h; simp at h
      · rw [hr] at h
        simp only [Option.bind_eq_bind, Option.some_bind, Option.pure_def,
          Option.some.injEq] at h
        subst h
        cases w
        case false =>
          simp only [Bool.false_eq_true, if_false, List.mem_cons]
          rw [ih rest' hr p]
          constructor
          · rintro (rfl | ⟨hmem, hC⟩)
            · exact ⟨Or.inl rfl, hw⟩
            · exact ⟨Or.inr hmem, hC⟩
          · rintro ⟨rfl | hmem, hC⟩
            · exact Or.inl rfl
            · exact Or.inr ⟨hmem, hC⟩
        case true =>
          simp only [if_true]
          rw [ih rest' hr p]
          constructor
          · rintro ⟨hmem, hC⟩
            exact ⟨List.mem_cons_of_mem _ hmem, hC⟩
          · rintro ⟨hmem, hC⟩
            rcases List.mem_cons.mp hmem with rfl | hmem'
            · rw [hw] at hC; exact absurd hC (by simp)
            · exact ⟨hmem', hC⟩

/-- Membership in the fixed-delta raw moves of knight and king. -/
lemma mem_deltaRawMoves (b : Board) (pc : PieceColor) (deltas : List (Int × Int))
    (row col : Int) (q : Position) :
    q ∈ deltaRawMoves b pc deltas row col ↔
      ∃ d ∈ deltas, isEmptyOrCapture b pc (row + d.1) (col + d.2) = true ∧
        q = ⟨row + d.1, col + d.2⟩ := by
  simp only [deltaRawMoves, List.mem_filterMap]
  constructor
  · rintro ⟨d, hd, hf⟩
    by_cases hg : isEmptyOrCapture b pc (row + d.1) (col + d.2) = true
    · rw [if_pos hg] at hf
      exact ⟨d, hd, hg, (Option.some.inj hf).symm⟩
    · rw [if_neg hg] at hf
      exact absurd hf (by simp)
  · rintro ⟨d, hd, hg, rfl⟩
    exact ⟨d, hd, by rw [if_pos hg]⟩

/-- A plain (non-castling) king step never changes the column by two. -/
lemma kingDelta_col_ne_two (b : Board) (pc : PieceColor) (row col : Int)
    (q : Position) (h : q ∈ deltaRawMoves b pc kingDeltas row col) :
    q.col ≠ col + 2 ∧ q.col ≠ col - 2 := by
  obtain ⟨d, hd, -, rfl⟩ := (mem_deltaRawMoves b pc kingDeltas row col q).mp h
  simp only [kingDeltas, List.mem_cons, List.not_mem_nil, or_false] at hd
  rcases hd with rfl|rfl|rfl|rfl|rfl|rfl|rfl|rfl <;>
    refine ⟨?_, ?_⟩ <;> simp <;> omega

/-- Unfolding `castleMoves` for an unmoved king: both castle halves ran to
completion and the result is their concatenation. -/
lemma castleMoves_split (fuel : Nat) (b : Board) (piece : ChessPiece)
    (row col : Int) (cast : List Position) (hm : piece.hasMoved = false)
    (h : castleMoves fuel b piece row col = some cast) :
    ∃ ks qs, kingsideCastle fuel b piece row col = some ks ∧
      queensideCastle fuel b piece row col = some qs ∧ cast = ks ++ qs := by
  rw [castleMoves, hm] at h
  simp only [Bool.false_eq_true, if_false] at h
  rcases hks : kingsideCastle fuel b piece row col with _ | ks
  · rw [hks] at h; simp at h
  · rw [hks] at h
    simp only [Option.bind_eq_bind, Option.some_bind] at h
    rcases hqs : queensideCastle fuel b piece row col with _ | qs
    · rw [hqs] at h; simp at h
    · rw [hqs] at h
      simp only [Option.bind_eq_bind, Option.some_bind, Option.pure_def,
        Option.some.injEq] at h
      exact ⟨ks, qs, rfl, rfl, h.symm⟩

/-- Claim C5 counterexample: on `c5Board` the unmoved king stands on
column 3, the square `(7,4)` strictly between it and the unmoved rook on
`(7,7)` is occupied by a bishop — yet the generator still offers the
two-files-sideways destination `(7,5)`, because the source tests only the
fixed squares `(row,5)` and `(row,6)`, not the squares between king and
rook. -/
theorem C5_castle_offered_over_occupied_square :
    c5Board 7 3 = some ⟨.king, .white, false⟩ ∧
    c5Board 7 4 = some ⟨.bishop, .white, false⟩ ∧
    c5Board 7 7 = some ⟨.rook, .white, false⟩ ∧
    (⟨7, 5⟩ : Position) ∈ (getPossibleMoves 64 c5Board 7 3).getD [] := by
  exact ⟨by decide, by decide, by decide, by decide⟩

/-- Claim C5 (amended, restricted to a king on its home column 4): a
terminating legal-move call for a king on `(row,4)` lists the castling
destination `(row,6)` (resp. `(row,2)`) exactly when the king is unmoved
and the kingside (resp. queenside) conditions hold: unmoved own rook on the
corner, the fixed intervening squares empty, not in check, and the one- and
two-file king relocations unattacked. -/
theorem C5_amended_castle_iff (fuel : Nat) (b : Board) (row : Int)
    (C : PieceColor) (hm : Bool) (mvs : List Position)
    (h0 : 0 ≤ row) (h8 : row < 8)
    (hpiece : b row 4 = some ⟨.king, C, hm⟩)
    (hmv : getPossibleMoves fuel b row 4 = some mvs) :
    ((⟨row, 6⟩ : Position) ∈ mvs ↔ hm = false ∧ ksCastleConds fuel b C row 4) ∧
    ((⟨row, 2⟩ : Position) ∈ mvs ↔ hm = false ∧ qsCastleConds fuel b C row 4) := by
  rw [getPossibleMoves, if_neg (not_not_intro ⟨h0, h8⟩)] at hmv
  rw [hpiece] at hmv
  simp only [Option.bind_eq_bind] at hmv
  rcases hraw : getRawMoves fuel b row 4 with _ | raw
  · rw [hraw] at hmv; simp at hmv
  · rw [hraw] at hmv
    simp only [Option.some_bind] at hmv
    rw [getRawMoves, hpiece] at hraw
    simp only [Option.bind_eq_bind] at hraw
    rcases hcast : castleMoves fuel b ⟨.king, C, hm⟩ row 4 with _ | cast
    · rw [hcast] at hraw; simp at hraw
    · rw [hcast] at hraw
      simp only [Option.some_bind, Option.pure_def, Option.some.injEq] at hraw
      subst hraw
      have hmem := filterLegal_mem fuel b row 4 C _ mvs hmv
      have hd6 : (⟨row, 6⟩ : Position) ∉ deltaRawMoves b C kingDeltas row 4 := by
        intro hin
        exact (kingDelta_col_ne_two b C row 4 ⟨row, 6⟩ hin).1 (by norm_num)
      have hd2 : (⟨row, 2⟩ : Position) ∉ deltaRawMoves b C kingDeltas row 4 := by
        intro hin
        exact (kingDelta_col_ne_two b C row 4 ⟨row, 2⟩ hin).2 (by norm_num)
      cases hm
      case true =>
        rw [castleMoves] at hcast
        simp only [if_true] at hcast
        obtain rfl : ([] : List Position) = cast := Option.some.inj hcast
        constructor <;>
          · rw [hmem]
            simp only [List.append_nil, Bool.true_eq_false, false_and, iff_false,
              not_and]
            intro hin
            first
              | exact absurd hin hd6
              | exact absurd hin hd2
      case false =>
        obtain ⟨ks, qs, hks, hqs, rfl⟩ :=
          castleMoves_split fuel b ⟨.king, C, false⟩ row 4 cast rfl hcast
        have hksS := kingsideCastle_shape fuel b ⟨.king, C, false⟩ row 4 ks hks
        have hqsS := queensideCastle_shape fuel b ⟨.king, C, false⟩ row 4 qs hqs
        constructor
        · rw [hmem ⟨row, 6⟩]
          simp only [List.mem_append]
          rcases hksS with ⟨rfl, hconds⟩ | ⟨rfl, hnconds⟩
          · refine iff_of_true ⟨Or.inr (Or.inl (by norm_num)), ?_⟩ ⟨by trivial, hconds⟩
            have hw2 := hconds.2.2.2.2.2
            simpa using hw2
          · refine iff_of_false ?_ ?_
            · rintro ⟨(hin | hin | hin), -⟩
              · exact hd6 hin
              · simp at hin
              · rcases hqsS with ⟨rfl, -⟩ | ⟨rfl, -⟩
                · simp at hin
                · simp at hin
            · rintro ⟨-, hconds⟩
              exact hnconds hconds
        · rw [hmem ⟨row, 2⟩]
          simp only [List.mem_append]
          rcases hqsS with ⟨rfl, hconds⟩ | ⟨rfl, hnconds⟩
          · refine iff_of_true ⟨Or.inr (Or.inr (by norm_num)), ?_⟩ ⟨by trivial, hconds⟩
            have hw2 := hconds.2.2.2.2.2.2
            simpa using hw2
          · refine iff_of_false ?_ ?_
            · rintro ⟨(hin | hin | hin), -⟩
              · exact hd2 hin
              · rcases hksS with ⟨rfl, -⟩ | ⟨rfl, -⟩
                · simp at hin
                · simp at hin
              · simp at hin
            · rintro ⟨-, hconds⟩
              exact hnconds hconds

/-- Witness for C5 (amended): on `c3Board` the queenside conditions hold and
the theorem forces `(7,2)` into the computed move list. -/
theorem C5_amended_castle_iff_witness :
    getPossibleMoves 64 c3Board 7 4 =
      some [⟨6, 3⟩, ⟨6, 4⟩, ⟨6, 5⟩, ⟨7, 3⟩, ⟨7, 5⟩, ⟨7, 2⟩] ∧
    (⟨7, 2⟩ : Position) ∈
      [⟨6, 3⟩, ⟨6, 4⟩, ⟨6, 5⟩, ⟨7, 3⟩, ⟨7, 5⟩, (⟨7, 2⟩ : Position)] := by
  have hg : getPossibleMoves 64 c3Board 7 4 =
      some [⟨6, 3⟩, ⟨6, 4⟩, ⟨6, 5⟩, ⟨7, 3⟩, ⟨7, 5⟩, ⟨7, 2⟩] := by decide
  refine ⟨hg, ?_⟩
  exact ((C5_amended_castle_iff 64 c3Board 7 .white false _ (by decide) (by decide)
    (by decide) hg).2).mpr
    ⟨rfl, by decide, by decide, by decide, by decide, by decide, by decide, by decide⟩

/-- Claim C7 counterexample: on `c7Board` the engine reports *both* colors
checkmated, and the `if / else if` chain of `evaluateBoard` then yields the
white-checkmate constant `-1000`, not `+1000`, even though black is
checkmated — refuting "whenever black is checkmated it returns exactly
+1000". -/
theorem C7_mutual_checkmate_scores_minus_1000 :
    isCheckmate 64 c7Board .white = some true ∧
    isCheckmate 64 c7Board .black = some true ∧
    evaluateBoard 64 c7Board = some (-1000) ∧
    evaluateBoard 64 c7Board ≠ some 1000 := by
  exact ⟨by decide, by decide, by decide, by decide⟩

/-- Claim C7 (amended): whenever `evaluateBoard` returns a score, the score
is exactly `-1000` if white is checkmated, and exactly `+1000` if white is
*not* checkmated and black is — matching the precedence of the source's
`if / else if` chain. -/
theorem C7_amended_terminal_override (fuel : Nat) (b : Board) (s : ℚ)
    (h : evaluateBoard fuel b = some s) :
    (isCheckmate fuel b .white = some true → s = -1000) ∧
    (isCheckmate fuel b .white = some false →
      isCheckmate fuel b .black = some true → s = 1000) := by
  constructor
  · intro hW
    simp only [evaluateBoard, hW] at h
    exact (Option.some.inj h).symm
  · intro hW hB
    simp only [evaluateBoard, hW, hB] at h
    exact (Option.some.inj h).symm

/-- Witness for C7 (amended) on `c7Board`. -/
theorem C7_amended_terminal_override_witness :
    evaluateBoard 64 c7Board = some (-1000) ∧ ((-1000 : ℚ) = -1000) :=
  ⟨by decide, (C7_amended_terminal_override 64 c7Board (-1000) (by decide)).1 (by decide)⟩

/-- Claim C8 counterexample: the rook relocated by the queenside castle
`(7,4) → (7,2)` on `c3Board` arrives at `(7,3)` with `hasMoved` still
`false` — `movePiece` copies the rook without touching its flag — refuting
"including the rook relocated as part of a castling move". -/
theorem C8_castled_rook_keeps_hasMoved_false :
    c3Board 7 0 = some ⟨.rook, .white, false⟩ ∧
    movePiece c3Board 7 4 7 2 none = some c3After ∧
    c3After 7 3 = some ⟨.rook, .white, false⟩ ∧
    c3After 7 2 = some ⟨.king, .white, true⟩ := by
  exact ⟨by decide, rfl, by decide, by decide⟩

/-- Claim C8 (amended): for every `movePiece` call on a piece `p` (from and
to in row range, not a self-move), the destination holds `p` with its type
updated by promotion first, and `hasMoved` set to `true` exactly when that
*post-promotion* type is king, rook, or pawn (otherwise the old flag is
kept); and for a castling king move from column 4, the relocated rook's
cell value — `hasMoved` included — is copied unchanged from its corner. -/
theorem C8_amended_hasMoved_update (b : Board) (fr fc tr tc : Int)
    (promo : Option PieceType) (p : ChessPiece)
    (h0 : 0 ≤ fr) (h8 : fr < 8) (ht0 : 0 ≤ tr) (ht8 : tr < 8)
    (hp : b fr fc = some p) (hne : ¬ (fr = tr ∧ fc = tc)) :
    (∃ t' : PieceType,
      t' = (if p.type = .pawn ∧ (tr = 0 ∨ tr = 7) then promo.getD .queen else p.type) ∧
      (movePiece b fr fc tr tc promo).bind (fun b' => b' tr tc) =
        some ⟨t', p.color,
          if t' = .king ∨ t' = .rook ∨ t' = .pawn then true else p.hasMoved⟩) ∧
    (p.type = .king → fc = 4 → tc = 6 →
      (movePiece b fr fc tr tc promo).bind (fun b' => b' tr 5) = b tr 7 ∧
      (movePiece b fr fc tr tc promo).bind (fun b' => b' tr 7) = none) ∧
    (p.type = .king → fc = 4 → tc = 2 →
      (movePiece b fr fc tr tc promo).bind (fun b' => b' tr 3) = b tr 0 ∧
      (movePiece b fr fc tr tc promo).bind (fun b' => b' tr 0) = none) := by
  have hne' : ¬ (tr = fr ∧ tc = fc) := fun h => hne ⟨h.1.symm, h.2.symm⟩
  refine ⟨⟨_, rfl, ?_⟩, ?_, ?_⟩
  · simp [movePiece, hp, h0, h8, ht0, ht8, bset, hne']
  · intro hk hfc htc
    subst hfc; subst htc
    have hcast : p.type = .king ∧ ((4 : Int) - 6).natAbs = 2 := ⟨hk, by norm_num⟩
    constructor <;>
      simp [movePiece, hp, h0, h8, ht0, ht8, hcast, bset,
        show (6 : Int) > 4 by norm_num]
  · intro hk hfc htc
    subst hfc; subst htc
    have hcast : p.type = .king ∧ ((4 : Int) - 2).natAbs = 2 := ⟨hk, by norm_num⟩
    constructor <;>
      simp [movePiece, hp, h0, h8, ht0, ht8, hcast, bset,
        show ¬ ((2 : Int) > 4) by norm_num]

lemma mem_idx8 {x : Int} : x ∈ idx8 ↔ 0 ≤ x ∧ x < 8 := by
  constructor
  · intro h; simp only [idx8, List.mem_cons, List.not_mem_nil, or_false] at h; omega
  · intro h; simp only [idx8, List.mem_cons, List.not_mem_nil, or_false]; omega

lemma mem_allSquares (rc : Int × Int) :
    rc ∈ allSquares ↔ 0 ≤ rc.1 ∧ rc.1 < 8 ∧ 0 ≤ rc.2 ∧ rc.2 < 8 := by
  obtain ⟨r, c⟩ := rc
  simp only [allSquares, List.mem_flatten, List.mem_map]
  constructor
  · rintro ⟨l, ⟨r', hr', rfl⟩, hmem⟩
    simp only [List.mem_map, Prod.mk.injEq] at hmem
    obtain ⟨c', hc', rfl, rfl⟩ := hmem
    obtain ⟨h1, h2⟩ := mem_idx8.mp hr'
    obtain ⟨h3, h4⟩ := mem_idx8.mp hc'
    exact ⟨h1, h2, h3, h4⟩
  · rintro ⟨h1, h2, h3, h4⟩
    exact ⟨idx8.map (fun c' => (r, c')), ⟨r, mem_idx8.mpr ⟨h1, h2⟩, rfl⟩,
      List.mem_map.mpr ⟨c, mem_idx8.mpr ⟨h3, h4⟩, rfl⟩⟩

/-- The checkmate piece scan answers `true` exactly when every piece of the
color in the scanned list has a (terminating and) empty legal-move list. -/
lemma mateScan_eq_some_true_iff (fuel : Nat) (b : Board) (color : PieceColor) :
    ∀ l : List (Int × Int),
      mateScan fuel b color l = some true ↔
        ∀ rc ∈ l, pieceColorAt b color rc.1 rc.2 = true →
          getPossibleMoves fuel b rc.1 rc.2 = some [] := by
  intro l
  induction l with
  | nil => simp [mateScan]
  | cons rc rest ih =>
    simp only [mateScan]
    by_cases hpc : pieceColorAt b color rc.1 rc.2 = true
    · rw [if_pos hpc]
      cases hg : getPossibleMoves fuel b rc.1 rc.2 with
      | none =>
        constructor
        · intro h; exact absurd h (by simp)
        · intro h; exact absurd (h rc (by simp) hpc) (by simp [hg])
      | some ms =>
        cases ms with
        | nil =>
          constructor
          · intro h rc' hmem' hpc'
            rcases List.mem_cons.mp hmem' with rfl | hmem
            · exact hg
            · exact ih.mp h rc' hmem hpc'
          · intro h
            exact ih.mpr (fun rc' hmem hpc' => h rc' (List.mem_cons_of_mem _ hmem) hpc')
        | cons m ms' =>
          constructor
          · intro h; exact absurd h (by simp)
          · intro h
            have := h rc (by simp) hpc
            rw [hg] at this
            exact absurd this (by simp)
    · rw [if_neg hpc]
      constructor
      · intro h rc' hmem' hpc'
        rcases List.mem_cons.mp hmem' with rfl | hmem
        · exact absurd hpc' hpc
        · exact ih.mp h rc' hmem hpc'
      · intro h
        exact ih.mpr (fun rc' hmem hpc' => h rc' (List.mem_cons_of_mem _ hmem) hpc')

/-- Claim C4: `isCheckmate` returns `false` as soon as `isCheck` answers
`false`; and whenever it returns a verdict at all, the verdict is `true`
exactly when `isCheck` answered `true` and `getPossibleMoves` answered the
empty list for every on-board square holding a piece of the color. -/
theorem C4_checkmate_iff_check_and_no_moves (fuel : Nat) (b : Board)
    (color : PieceColor) :
    (isCheck fuel b color = some false → isCheckmate fuel b color = some false) ∧
    (∀ v : Bool, isCheckmate fuel b color = some v →
      (v = true ↔ (isCheck fuel b color = some true ∧
        ∀ r c : Int, 0 ≤ r → r < 8 → 0 ≤ c → c < 8 →
          pieceColorAt b color r c = true →
          getPossibleMoves fuel b r c = some []))) := by
  constructor
  · intro h; simp [isCheckmate, h]
  · intro v hv
    rcases hch : isCheck fuel b color with _ | bv
    · rw [isCheckmate, hch] at hv; exact absurd hv (by simp)
    · cases bv
      · rw [isCheckmate, hch] at hv
        have hv' : false = v := Option.some.inj hv
        subst hv'
        simp [hch]
      · rw [isCheckmate, hch] at hv
        constructor
        · rintro rfl
          refine ⟨rfl, ?_⟩
          intro r c h0 h8 hc0 hc8 hpc
          exact (mateScan_eq_some_true_iff fuel b color allSquares).mp hv (r, c)
            ((mem_allSquares (r, c)).mpr ⟨h0, h8, hc0, hc8⟩) hpc
        · rintro ⟨-, hall⟩
          have hscan : mateScan fuel b color allSquares = some true :=
            (mateScan_eq_some_true_iff fuel b color allSquares).mpr
              (fun rc hmem hpc => by
                obtain ⟨h0, h8, hc0, hc8⟩ := (mem_allSquares rc).mp hmem
                exact hall rc.1 rc.2 h0 h8 hc0 hc8 hpc)
          rw [hscan] at hv
          exact (Option.some.inj hv).symm

/-- Witness for C4 on the initial board: white is not in check, so
`isCheckmate` answers `false` via the first clause. -/
theorem C4_checkmate_iff_check_and_no_moves_witness :
    isCheckmate 64 initialBoard .white = some false :=
  (C4_checkmate_iff_check_and_no_moves 64 initialBoard .white).1 (by decide)

/-- Claim C10: exactly one king per color is claimed to persist on every
reachable board until that side is checkmated, kings never being captured.
In the eight-ply game `1. e4 d5 2. Ke2 d4 3. Nf3 d3 4. Ng1 dxe2?!` every
move is produced by the generator for the side to move, yet the last one
captures the white king: the pawn-attack probe of `isKingUnderAttack` looks
on the wrong side of the king (`pawnDirection = +1` for white), so neither
white's king walk nor the final position counts as check, white is not
checkmated before the capture, and the reached board has zero white
kings. -/
theorem C10_reachable_board_loses_its_king :
    Reachable c10Final .white ∧
    kingCount initialBoard .white = 1 ∧
    kingCount c10Final .white = 0 ∧
    isCheckmate 64 c10B7 .white = some false := by
  have h0 : Reachable initialBoard .white := .init
  have h1 := Reachable.step initialBoard .white 6 4 4 4 none ⟨.pawn, .white, false⟩
    64 [⟨5, 4⟩, ⟨4, 4⟩] c10B1 h0 (by decide) rfl (by decide) (by decide) rfl
  have h2 := Reachable.step c10B1 .black 1 3 3 3 none ⟨.pawn, .black, false⟩
    64 [⟨2, 3⟩, ⟨3, 3⟩] c10B2 h1 (by decide) rfl (by decide) (by decide) rfl
  have h3 := Reachable.step c10B2 .white 7 4 6 4 none ⟨.king, .white, false⟩
    64 [⟨6, 4⟩] c10B3 h2 (by decide) rfl (by decide) (by decide) rfl
  have h4 := Reachable.step c10B3 .black 3 3 4 3 none ⟨.pawn, .black, true⟩
    64 [⟨4, 3⟩, ⟨4, 4⟩] c10B4 h3 (by decide) rfl (by decide) (by decide) rfl
  have h5 := Reachable.step c10B4 .white 7 6 5 5 none ⟨.knight, .white, false⟩
    64 [⟨5, 5⟩, ⟨5, 7⟩] c10B5 h4 (by decide) rfl (by decide) (by decide) rfl
  have h6 := Reachable.step c10B5 .black 4 3 5 3 none ⟨.pawn, .black, true⟩
    64 [⟨5, 3⟩] c10B6 h5 (by decide) rfl (by decide) (by decide) rfl
  have h7 := Reachable.step c10B6 .white 5 5 7 6 none ⟨.knight, .white, false⟩
    64 [⟨3, 4⟩, ⟨3, 6⟩, ⟨4, 3⟩, ⟨4, 7⟩, ⟨7, 4⟩, ⟨7, 6⟩] c10B7 h6
    (by decide) rfl (by decide) (by decide) rfl
  have h8 := Reachable.step c10B7 .black 5 3 6 4 none ⟨.pawn, .black, true⟩
    64 [⟨6, 2⟩, ⟨6, 4⟩] c10Final h7 (by decide) rfl (by decide) (by decide) rfl
  exact ⟨h8, by decide, by decide, by decide⟩

/-- Witness for C8 (amended) at the queenside castle on `c3Board`: the king
lands on `(7,2)` flagged moved, the rook value at `(7,3)` is the unchanged
corner value. -/
theorem C8_amended_hasMoved_update_witness :
    c3After 7 2 = some ⟨.king, .white, true⟩ ∧
    c3After 7 3 = some ⟨.rook, .white, false⟩ := by
  have h := C8_amended_hasMoved_update c3Board 7 4 7 2 none ⟨.king, .white, false⟩
    (by decide) (by decide) (by decide) (by decide) (by decide) (by decide)
  have hm : movePiece c3Board 7 4 7 2 none = some c3After := rfl
  constructor
  · obtain ⟨t', ht', hdest⟩ := h.1
    rw [hm] at hdest
    simp only [Option.bind] at hdest
    simp only [show t' = .king from by simpa using ht'] at hdest
    simpa using hdest
  · have hq := (h.2.2 rfl rfl rfl).1
    rw [hm] at hq
    simp only [Option.bind] at hq
    rw [hq]
    decide

end ChessEngine
